import Mathlib

/-!
Shallow embedding of the `users` crate (src/lib.rs): a safe wrapper over the
Unix user/group database with a caching layer (`OSUsers`).

The C accessor layer (`getpwuid`, `getpwnam`, `getgrgid`, `getgrnam`,
`getuid`) is modelled by a value of type `OS` holding the raw `passwd` and
`group` records and the current uid; each lookup operation additionally
returns the number of raw accessor invocations it performed, so that the
"no system call" parts of the specification are statable.

`HashMap` is modelled by an association list: `findA` returns the most
recently inserted binding for a key, `insertA` prepends, which is
observationally the overwrite semantics of `HashMap::insert`.  The
`entry` API of the source is translated by first consulting `findA`
(`Vacant` = `none`) and inserting only in the vacant branch.

Indexing a `HashMap` with a missing key panics in Rust; operations on a
lookup path that contains such an indexing step return `LookupOut.panicked`
in that case.
-/

namespace RustUsers

/-- Information about a particular user (`pub struct User`). -/
structure User where
  uid : Int
  name : String
  primary_group : Nat
  deriving DecidableEq, Repr

/-- Information about a particular group (`pub struct Group`). -/
structure Group where
  gid : Nat
  name : String
  members : List String
  deriving DecidableEq, Repr

/-- A raw `passwd` record (`struct c_passwd`), the fields the crate reads. -/
structure CPasswd where
  pw_name : String
  pw_uid : Int
  pw_gid : Int
  deriving DecidableEq, Repr

/-- A raw `group` record (`struct c_group`), the fields the crate reads.
`gr_mem` models the `*const *const c_char` member array: `none` is a null
outer pointer; otherwise the list holds the successive entries, `none`
being a null string pointer (the terminator). -/
structure CGroup where
  gr_name : String
  gr_gid : Nat
  gr_mem : Option (List (Option String))
  deriving DecidableEq, Repr

/-- The host environment backing the raw accessors. -/
structure OS where
  passwd_db : List CPasswd
  group_db : List CGroup
  current_uid : Int
  deriving DecidableEq, Repr

/-- Model of `getpwuid`: first `passwd` record with the given uid, if any. -/
def getpwuid (db : OS) (uid : Int) : Option CPasswd :=
  db.passwd_db.find? (fun p => decide (p.pw_uid = uid))

/-- Model of `getpwnam`: first `passwd` record with the given name, if any. -/
def getpwnam (db : OS) (user_name : String) : Option CPasswd :=
  db.passwd_db.find? (fun p => decide (p.pw_name = user_name))

/-- Model of `getgrgid`: first `group` record with the given gid, if any. -/
def getgrgid (db : OS) (gid : Nat) : Option CGroup :=
  db.group_db.find? (fun g => decide (g.gr_gid = gid))

/-- Model of `getgrnam`: first `group` record with the given name, if any. -/
def getgrnam (db : OS) (group_name : String) : Option CGroup :=
  db.group_db.find? (fun g => decide (g.gr_name = group_name))

/-- Model of `getuid`: the effective uid of the running process. -/
def getuid (db : OS) : Int := db.current_uid

/-- Source `unsafe fn passwd_to_user`: null pointer becomes `none`; otherwise the
record is converted, `pw_gid as u32` being the two's-complement cast. -/
def passwd_to_user : Option CPasswd → Option User
  | none => none
  | some pw =>
      some { uid := pw.pw_uid, name := pw.pw_name,
             primary_group := (pw.pw_gid % (2 : Int) ^ 32).toNat }

/-- The loop body of `unsafe fn members`: walk the entries in order, keep
each non-null name, stop at the first null entry; running out of readable
entries also stops the walk with the members collected so far. -/
def membersLoop : List (Option String) → List String
  | [] => []
  | none :: _ => []
  | some s :: rest => s :: membersLoop rest

/-- Source `unsafe fn members`: a null outer pointer yields the empty list
(`groups.offset(0).as_ref()` is `None`); otherwise walk the entries. -/
def members : Option (List (Option String)) → List String
  | none => []
  | some entries => membersLoop entries

/-- Source `unsafe fn struct_to_group`. -/
def struct_to_group : Option CGroup → Option Group
  | none => none
  | some gr =>
      some { gid := gr.gr_gid, name := gr.gr_name, members := members gr.gr_mem }

/-- Lookup in an association list modelling `HashMap`: most recent binding
for the key, `none` when the key is absent (`Vacant`). -/
def findA {α β : Type} [DecidableEq α] : List (α × β) → α → Option β
  | [], _ => none
  | (k, v) :: rest, a => if k = a then some v else findA rest a

/-- Model of `HashMap::insert` (overwrite semantics under `findA`). -/
def insertA {α β : Type} [DecidableEq α] (l : List (α × β)) (a : α) (b : β) :
    List (α × β) :=
  (a, b) :: l

/-- Source `pub struct OSUsers`: the additive cache. -/
structure OSUsers where
  users : List (Int × Option User)
  users_back : List (String × Option Int)
  groups : List (Nat × Option Group)
  groups_back : List (String × Option Nat)
  uid : Option Int
  deriving DecidableEq, Repr

/-- Source `OSUsers::empty_cache`. -/
def OSUsers.empty_cache : OSUsers :=
  { users := [], users_back := [], groups := [], groups_back := [], uid := none }

/-- Outcome of a lookup that may panic (Rust `HashMap` indexing with a
missing key): either a value, the cache after the call, and the number of
raw accessor invocations, or a panic. -/
inductive LookupOut (α : Type) where
  | ok (val : α) (cache : OSUsers) (calls : Nat)
  | panicked
  deriving DecidableEq, Repr

/-- Source `fn get_user_by_uid(&mut self, uid: i32)`: `self.users.entry(uid)` —
occupied returns the stored value; vacant consults `getpwuid`, stores the
outcome under `uid`, and on success also stores `name ↦ Some(uid)` in
`users_back`. -/
def OSUsers.get_user_by_uid (db : OS) (c : OSUsers) (uid : Int) :
    Option User × OSUsers × Nat :=
  match findA c.users uid with
  | some v => (v, c, 0)
  | none =>
      match passwd_to_user (getpwuid db uid) with
      | some user =>
          (some user,
           { c with users := insertA c.users uid (some user),
                    users_back := insertA c.users_back user.name (some user.uid) },
           1)
      | none => (none, { c with users := insertA c.users uid none }, 1)

/-- Source `fn get_user_by_name(&mut self, username: String)`: on an occupied
`users_back` entry holding `Some(uid)`, the result is `self.users[uid]`,
which panics when `uid` is not a key of `users`. -/
def OSUsers.get_user_by_name (db : OS) (c : OSUsers) (username : String) :
    LookupOut (Option User) :=
  match findA c.users_back username with
  | none =>
      match passwd_to_user (getpwnam db username) with
      | some user =>
          .ok (some user)
            { c with users_back := insertA c.users_back username (some user.uid),
                     users := insertA c.users user.uid (some user) }
            1
      | none =>
          .ok none { c with users_back := insertA c.users_back username none } 1
  | some (some uid) =>
      match findA c.users uid with
      | some v => .ok v c 0
      | none => .panicked
  | some none => .ok none c 0

/-- Source `fn get_group_by_gid(&mut self, gid: u32)`: the source matches on
`self.groups.clone().entry(gid)`, so both `entry.set` calls mutate a
clone that is dropped — only the `self.groups_back.insert` in the
positive branch reaches the cache. -/
def OSUsers.get_group_by_gid (db : OS) (c : OSUsers) (gid : Nat) :
    Option Group × OSUsers × Nat :=
  match findA c.groups gid with
  | some v => (v, c, 0)
  | none =>
      match struct_to_group (getgrgid db gid) with
      | some group =>
          (some group,
           { c with groups_back := insertA c.groups_back group.name (some group.gid) },
           1)
      | none => (none, c, 1)

/-- Source `fn get_group_by_name(&mut self, group_name: String)`: the source
matches on `self.groups_back.clone().entry(group_name)`, so both
`entry.set` calls are lost — only `self.groups.insert` in the positive
branch reaches the cache.  An occupied entry holding `Some(gid)` yields
`self.groups[gid]`, which panics when `gid` is not a key of `groups`. -/
def OSUsers.get_group_by_name (db : OS) (c : OSUsers) (group_name : String) :
    LookupOut (Option Group) :=
  match findA c.groups_back group_name with
  | none =>
      match struct_to_group (getgrnam db group_name) with
      | some group =>
          .ok (some group)
            { c with groups := insertA c.groups group.gid (some group) } 1
      | none => .ok none c 1
  | some (some gid) =>
      match findA c.groups gid with
      | some v => .ok v c 0
      | none => .panicked
  | some none => .ok none c 0

/-- Source `fn get_current_uid(&mut self)`: cached scalar, `getuid` on first call. -/
def OSUsers.get_current_uid (db : OS) (c : OSUsers) : Int × OSUsers × Nat :=
  match c.uid with
  | some uid => (uid, c, 0)
  | none => (getuid db, { c with uid := some (getuid db) }, 1)

/-- Free function `get_user_by_uid`: one lookup on a fresh cache. -/
def get_user_by_uid (db : OS) (uid : Int) : Option User :=
  (OSUsers.get_user_by_uid db OSUsers.empty_cache uid).1

/-- Free function `get_user_by_name`. -/
def get_user_by_name (db : OS) (username : String) : LookupOut (Option User) :=
  OSUsers.get_user_by_name db OSUsers.empty_cache username

/-- Free function `get_group_by_gid`. -/
def get_group_by_gid (db : OS) (gid : Nat) : Option Group :=
  (OSUsers.get_group_by_gid db OSUsers.empty_cache gid).1

/-- Free function `get_group_by_name`. -/
def get_group_by_name (db : OS) (group_name : String) : LookupOut (Option Group) :=
  OSUsers.get_group_by_name db OSUsers.empty_cache group_name

/-- Free function `get_current_uid`. -/
def get_current_uid (db : OS) : Int :=
  (OSUsers.get_current_uid db OSUsers.empty_cache).1

/-- One cache operation of the public `Users` interface. -/
inductive Op where
  | userByUid (uid : Int)
  | userByName (n : String)
  | groupByGid (g : Nat)
  | groupByName (n : String)
  | currentUid
  deriving DecidableEq, Repr

/-- Run one operation for its effect on the cache; `none` means the
operation panicked. -/
def runOp (db : OS) (c : OSUsers) : Op → Option OSUsers
  | .userByUid u => some (OSUsers.get_user_by_uid db c u).2.1
  | .userByName n =>
      match OSUsers.get_user_by_name db c n with
      | .ok _ c1 _ => some c1
      | .panicked => none
  | .groupByGid g => some (OSUsers.get_group_by_gid db c g).2.1
  | .groupByName n =>
      match OSUsers.get_group_by_name db c n with
      | .ok _ c1 _ => some c1
      | .panicked => none
  | .currentUid => some (OSUsers.get_current_uid db c).2.1

/-- Run a sequence of operations; `none` as soon as one panics. -/
def runOps (db : OS) (c : OSUsers) : List Op → Option OSUsers
  | [] => some c
  | op :: rest =>
      match runOp db c op with
      | some c1 => runOps db c1 rest
      | none => none

/-- The caches that can actually arise: obtained from `empty_cache` by a
sequence of operations against `db`. -/
def Reachable (db : OS) (c : OSUsers) : Prop :=
  ∃ ops, runOps db OSUsers.empty_cache ops = some c

/-- A well-formed host database: uids and user names are unique keys. -/
def WFdb (db : OS) : Prop :=
  (db.passwd_db.map (fun p => p.pw_uid)).Nodup ∧
  (db.passwd_db.map (fun p => p.pw_name)).Nodup

/-- Value of a possibly panicking lookup, `none` when it panicked. -/
def LookupOut.valOf {α : Type} : LookupOut α → Option α
  | .ok v _ _ => some v
  | .panicked => none

/-- Accessor-invocation count of a possibly panicking lookup. -/
def LookupOut.callsOf {α : Type} : LookupOut α → Option Nat
  | .ok _ _ k => some k
  | .panicked => none

/-- The user the sample database reports for uid 1000. -/
def aliceUser : User := { uid := 1000, name := "alice", primary_group := 100 }

/-- The group the sample database reports for gid 7. -/
def staffGroup : Group := { gid := 7, name := "staff", members := ["alice"] }

/-- A small concrete host database used for the concrete-input theorems:
one user (uid 1000, "alice") and one group (gid 7, "staff"). -/
def sampleDB : OS :=
  { passwd_db := [{ pw_name := "alice", pw_uid := 1000, pw_gid := 100 }],
    group_db := [{ gr_name := "staff", gr_gid := 7,
                   gr_mem := some [some "alice", none] }],
    current_uid := 1000 }

/-- The cache after `get_user_by_uid 1000` on a fresh cache against
`sampleDB`: both user mappings populated. -/
def cacheAfterUidLookup : OSUsers :=
  { users := [(1000, some aliceUser)], users_back := [("alice", some 1000)],
    groups := [], groups_back := [], uid := none }

/-- The cache after `get_group_by_gid 7` on a fresh cache against
`sampleDB`: only `groups_back` is populated (the `groups` insertion is
lost to the cloned map). -/
def cacheAfterGidLookup : OSUsers :=
  { users := [], users_back := [], groups := [],
    groups_back := [("staff", some 7)], uid := none }

/-- Consistency of the user side of a cache with the database: every
positive `users` entry is keyed by its user's uid, has a matching
`users_back` entry, and is exactly what `getpwuid` reports.  This is the
cross-population invariant of the specification, restricted to the user
maps (the group maps do not satisfy it, see the group-claim theorems). -/
def UserInv (db : OS) (c : OSUsers) : Prop :=
  ∀ x u, findA c.users x = some (some u) →
    u.uid = x ∧ findA c.users_back u.name = some (some x) ∧
    passwd_to_user (getpwuid db x) = some u

theorem findA_cons {α β : Type} [DecidableEq α] (k : α) (v : β)
    (l : List (α × β)) (a : α) :
    findA ((k, v) :: l) a = if k = a then some v else findA l a := rfl

theorem findA_insert_self {α β : Type} [DecidableEq α] (l : List (α × β))
    (a : α) (b : β) : findA (insertA l a b) a = some b := by
  simp [insertA, findA]

theorem findA_insert_ne {α β : Type} [DecidableEq α] (l : List (α × β))
    (a a' : α) (b : β) (h : a ≠ a') :
    findA (insertA l a b) a' = findA l a' := by
  simp [insertA, findA, h]

theorem userInv_empty (db : OS) : UserInv db OSUsers.empty_cache := by
  intro x u h
  simp [OSUsers.empty_cache, findA] at h

/-- Searching a list by the key of one of its elements finds that element
when the keys are pairwise distinct. -/
theorem find?_key_eq_of_mem {α β : Type} [DecidableEq β] (f : α → β)
    (l : List α) (a : α) (hm : a ∈ l) (hn : (l.map f).Nodup) :
    l.find? (fun x => decide (f x = f a)) = some a := by
  induction l with
  | nil => cases hm
  | cons p t ih =>
    rw [List.map_cons, List.nodup_cons] at hn
    by_cases hp : f p = f a
    · rw [List.find?_cons_of_pos _ (by simpa using hp)]
      rcases List.mem_cons.mp hm with h | h
      · rw [h]
      · exact absurd (hp ▸ List.mem_map_of_mem f h) hn.1
    · rw [List.find?_cons_of_neg _ (by simpa using hp)]
      rcases List.mem_cons.mp hm with h | h
      · exact absurd (congrArg f h.symm) hp
      · exact ih h hn.2

/-- Inversion of `passwd_to_user` on a positive result. -/
theorem passwd_to_user_some {o : Option CPasswd} {u : User}
    (h : passwd_to_user o = some u) :
    ∃ pw, o = some pw ∧
      u = { uid := pw.pw_uid, name := pw.pw_name,
            primary_group := (pw.pw_gid % (2 : Int) ^ 32).toNat } := by
  cases o with
  | none => exact absurd h (by simp [passwd_to_user])
  | some pw =>
    simp only [passwd_to_user, Option.some.injEq] at h
    exact ⟨pw, rfl, h.symm⟩

/-- In a well-formed database, two positive uid lookups yielding users of
the same name are the same lookup. -/
theorem pw_lookup_name_uniq (db : OS) (hwf : WFdb db) {x1 x2 : Int}
    {u1 u2 : User}
    (h1 : passwd_to_user (getpwuid db x1) = some u1)
    (h2 : passwd_to_user (getpwuid db x2) = some u2)
    (he : u1.name = u2.name) : x1 = x2 ∧ u1 = u2 := by
  obtain ⟨pw1, hpw1, hu1⟩ := passwd_to_user_some h1
  obtain ⟨pw2, hpw2, hu2⟩ := passwd_to_user_some h2
  simp only [getpwuid] at hpw1 hpw2
  have hm1 : pw1 ∈ db.passwd_db := List.mem_of_find?_eq_some hpw1
  have hm2 : pw2 ∈ db.passwd_db := List.mem_of_find?_eq_some hpw2
  have hx1 : pw1.pw_uid = x1 := by simpa using List.find?_some hpw1
  have hx2 : pw2.pw_uid = x2 := by simpa using List.find?_some hpw2
  have hname : pw1.pw_name = pw2.pw_name := by
    have e1 : u1.name = pw1.pw_name := by rw [hu1]
    have e2 : u2.name = pw2.pw_name := by rw [hu2]
    rw [← e1, ← e2, he]
  have hpw : pw1 = pw2 := List.inj_on_of_nodup_map hwf.2 hm1 hm2 hname
  subst hpw
  exact ⟨hx1 ▸ hx2, hu1.trans hu2.symm⟩

/-- A positive result of `get_user_by_uid` in the vacant branch comes
straight from the database. -/
theorem userInv_get_user_by_uid {db : OS} {c : OSUsers} {x : Int}
    {v : Option User} {c1 : OSUsers} {k : Nat}
    (hwf : WFdb db) (hinv : UserInv db c)
    (h : OSUsers.get_user_by_uid db c x = (v, c1, k)) : UserInv db c1 := by
  unfold OSUsers.get_user_by_uid at h
  cases hfind : findA c.users x with
  | some w =>
    rw [hfind] at h
    simp only [Prod.mk.injEq] at h
    obtain ⟨-, rfl, -⟩ := h
    exact hinv
  | none =>
    rw [hfind] at h
    cases hget : passwd_to_user (getpwuid db x) with
    | none =>
      rw [hget] at h
      simp only [Prod.mk.injEq] at h
      obtain ⟨-, rfl, -⟩ := h
      intro x0 u0 h0
      dsimp only at h0
      by_cases hx : x = x0
      · subst hx
        rw [findA_insert_self] at h0
        cases h0
      · rw [findA_insert_ne _ _ _ _ hx] at h0
        exact hinv x0 u0 h0
    | some user =>
      rw [hget] at h
      simp only [Prod.mk.injEq] at h
      obtain ⟨-, rfl, -⟩ := h
      obtain ⟨pw, hpw, hu⟩ := passwd_to_user_some hget
      have hx : user.uid = x := by
        rw [hu]
        simp only [getpwuid] at hpw
        simpa using List.find?_some hpw
      intro x0 u0 h0
      dsimp only at h0 ⊢
      by_cases hxe : x = x0
      · subst hxe
        rw [findA_insert_self] at h0
        obtain rfl : user = u0 := by simpa using h0
        refine ⟨hx, ?_, hx ▸ hget⟩
        rw [findA_insert_self, hx]
      · rw [findA_insert_ne _ _ _ _ hxe] at h0
        obtain ⟨he1, he2, he3⟩ := hinv x0 u0 h0
        refine ⟨he1, ?_, he3⟩
        by_cases hne : user.name = u0.name
        · exfalso
          obtain ⟨hx0, -⟩ := pw_lookup_name_uniq db hwf hget he3 hne
          exact hxe (hx ▸ hx0)
        · rw [findA_insert_ne _ _ _ _ hne]
          exact he2

/-- The user-side invariant only depends on the two user maps. -/
theorem userInv_congr {db : OS} {c c1 : OSUsers} (hinv : UserInv db c)
    (hu : c1.users = c.users) (hb : c1.users_back = c.users_back) :
    UserInv db c1 := by
  intro x u h
  rw [hu] at h
  rw [hb]
  exact hinv x u h

/-- Preservation of the user-side invariant by `get_user_by_name`. -/
theorem userInv_get_user_by_name {db : OS} {c : OSUsers} {n : String}
    {v : Option User} {c1 : OSUsers} {k : Nat}
    (hwf : WFdb db) (hinv : UserInv db c)
    (h : OSUsers.get_user_by_name db c n = .ok v c1 k) : UserInv db c1 := by
  unfold OSUsers.get_user_by_name at h
  split at h
  · rename_i hfind
    split at h
    · rename_i user hget
      injection h with h1 h2 h3
      subst h2
      obtain ⟨pw, hpw, hu⟩ := passwd_to_user_some hget
      simp only [getpwnam] at hpw
      have hmem : pw ∈ db.passwd_db := List.mem_of_find?_eq_some hpw
      have hname : pw.pw_name = n := by simpa using List.find?_some hpw
      have hdb : passwd_to_user (getpwuid db user.uid) = some user := by
        have hfound : getpwuid db pw.pw_uid = some pw := by
          simpa only [getpwuid] using find?_key_eq_of_mem
            (fun p => p.pw_uid) db.passwd_db pw hmem hwf.1
        have huid : user.uid = pw.pw_uid := by rw [hu]
        rw [huid, hfound, hu]
        rfl
      intro x0 u0 h0
      dsimp only at h0 ⊢
      by_cases hxe : user.uid = x0
      · subst hxe
        rw [findA_insert_self] at h0
        obtain rfl : user = u0 := by simpa using h0
        have hun : user.name = n := by rw [hu]; exact hname
        refine ⟨rfl, ?_, hdb⟩
        rw [hun, findA_insert_self]
      · rw [findA_insert_ne _ _ _ _ hxe] at h0
        obtain ⟨he1, he2, he3⟩ := hinv x0 u0 h0
        refine ⟨he1, ?_, he3⟩
        by_cases hne : n = u0.name
        · exact absurd (hne ▸ he2) (by rw [hfind]; intro hc; cases hc)
        · rw [findA_insert_ne _ _ _ _ hne]
          exact he2
    · rename_i hget
      injection h with h1 h2 h3
      subst h2
      intro x0 u0 h0
      dsimp only at h0 ⊢
      obtain ⟨he1, he2, he3⟩ := hinv x0 u0 h0
      refine ⟨he1, ?_, he3⟩
      by_cases hne : n = u0.name
      · exact absurd (hne ▸ he2) (by rw [hfind]; intro hc; cases hc)
      · rw [findA_insert_ne _ _ _ _ hne]
        exact he2
  · split at h
    · injection h with h1 h2 h3
      exact h2 ▸ hinv
    · cases h
  · injection h with h1 h2 h3
    exact h2 ▸ hinv

/-- The two group lookups and `get_current_uid` do not touch the user
maps, so they preserve the user-side invariant. -/
theorem userInv_runOp {db : OS} {c c1 : OSUsers} {op : Op}
    (hwf : WFdb db) (hinv : UserInv db c)
    (h : runOp db c op = some c1) : UserInv db c1 := by
  cases op with
  | userByUid u =>
    simp only [runOp, Option.some.injEq] at h
    exact userInv_get_user_by_uid hwf hinv
      (show OSUsers.get_user_by_uid db c u
          = ((OSUsers.get_user_by_uid db c u).1, c1,
             (OSUsers.get_user_by_uid db c u).2.2) from by rw [← h])
  | userByName n =>
    simp only [runOp] at h
    cases hcall : OSUsers.get_user_by_name db c n with
    | ok v c2 k =>
      rw [hcall] at h
      obtain rfl : c2 = c1 := by simpa using h
      exact userInv_get_user_by_name hwf hinv hcall
    | panicked =>
      rw [hcall] at h
      cases h
  | groupByGid g =>
    simp only [runOp, Option.some.injEq] at h
    subst h
    unfold OSUsers.get_group_by_gid
    cases findA c.groups g with
    | some v => exact hinv
    | none =>
      cases struct_to_group (getgrgid db g) with
      | some gr => exact userInv_congr hinv rfl rfl
      | none => exact hinv
  | groupByName n =>
    simp only [runOp] at h
    cases hcall : OSUsers.get_group_by_name db c n with
    | ok v c2 k =>
      rw [hcall] at h
      obtain rfl : c2 = c1 := by simpa using h
      unfold OSUsers.get_group_by_name at hcall
      split at hcall
      · split at hcall
        · injection hcall with h1 h2 h3
          exact h2 ▸ userInv_congr hinv rfl rfl
        · injection hcall with h1 h2 h3
          exact h2 ▸ hinv
      · split at hcall
        · injection hcall with h1 h2 h3
          exact h2 ▸ hinv
        · cases hcall
      · injection hcall with h1 h2 h3
        exact h2 ▸ hinv
    | panicked =>
      rw [hcall] at h
      cases h
  | currentUid =>
    simp only [runOp, Option.some.injEq] at h
    subst h
    unfold OSUsers.get_current_uid
    cases c.uid with
    | some u => exact hinv
    | none => exact userInv_congr hinv rfl rfl

/-- Running any operation sequence preserves the user-side invariant. -/
theorem userInv_runOps {db : OS} (hwf : WFdb db) :
    ∀ (ops : List Op) (c c1 : OSUsers), UserInv db c →
      runOps db c ops = some c1 → UserInv db c1 := by
  intro ops
  induction ops with
  | nil =>
    intro c c1 hinv h
    obtain rfl : c = c1 := by simpa [runOps] using h
    exact hinv
  | cons op rest ih =>
    intro c c1 hinv h
    unfold runOps at h
    cases hstep : runOp db c op with
    | some c2 =>
      rw [hstep] at h
      exact ih c2 c1 (userInv_runOp hwf hinv hstep) h
    | none =>
      rw [hstep] at h
      cases h

/-- Every reachable cache satisfies the user-side invariant. -/
theorem userInv_reachable {db : OS} {c : OSUsers} (hwf : WFdb db)
    (hr : Reachable db c) : UserInv db c := by
  obtain ⟨ops, h⟩ := hr
  exact userInv_runOps hwf ops OSUsers.empty_cache c (userInv_empty db) h

theorem membersLoop_map_append (ms : List String)
    (tail : List (Option String)) :
    membersLoop (ms.map some ++ none :: tail) = ms := by
  induction ms with
  | nil => rfl
  | cons s rest ih => simpa [membersLoop] using ih

theorem membersLoop_map (ms : List String) :
    membersLoop (ms.map some) = ms := by
  induction ms with
  | nil => rfl
  | cons s rest ih => simpa [membersLoop] using ih

/-- C1: the cross-population invariant fails on the group side.  Against
`sampleDB`, a positive `get_group_by_gid 7` on a fresh cache populates
only the name-to-gid mapping (`groups_back`), not the gid-to-Group
mapping (`groups`, whose insertion went to a cloned map); the subsequent
`get_group_by_name "staff"` hits the `groups_back` entry, indexes the
empty `groups` map, and panics instead of returning the group. -/
theorem group_cross_population_panics :
    OSUsers.get_group_by_gid sampleDB OSUsers.empty_cache 7
      = (some staffGroup, cacheAfterGidLookup, 1) ∧
    OSUsers.get_group_by_name sampleDB cacheAfterGidLookup "staff"
      = LookupOut.panicked := by
  decide

/-- C2: `get_group_by_gid` does not cache its outcome.  Against
`sampleDB`, the first call on a fresh cache makes one accessor call and
leaves the gid-keyed `groups` mapping empty, so the second call with the
same gid makes another accessor call (the values returned are equal, but
the "no system call" part of the claim fails). -/
theorem gid_lookup_not_cached :
    (OSUsers.get_group_by_gid sampleDB OSUsers.empty_cache 7).2.2 = 1 ∧
    ((OSUsers.get_group_by_gid sampleDB OSUsers.empty_cache 7).2.1).groups
      = [] ∧
    (OSUsers.get_group_by_gid sampleDB
        (OSUsers.get_group_by_gid sampleDB OSUsers.empty_cache 7).2.1 7).2.2
      = 1 ∧
    (OSUsers.get_group_by_gid sampleDB
        (OSUsers.get_group_by_gid sampleDB OSUsers.empty_cache 7).2.1 7).1
      = (OSUsers.get_group_by_gid sampleDB OSUsers.empty_cache 7).1 := by
  decide

/-- C3: `get_user_by_uid` makes at most one accessor call, stores its
outcome (positive or negative) under the uid key, and a repeated call on
the resulting cache returns the same value, the same cache, and performs
no accessor call. -/
theorem uid_lookup_cached_and_idempotent (db : OS) (c : OSUsers) (x : Int) :
    (OSUsers.get_user_by_uid db c x).2.2 ≤ 1 ∧
    findA ((OSUsers.get_user_by_uid db c x).2.1).users x
      = some (OSUsers.get_user_by_uid db c x).1 ∧
    OSUsers.get_user_by_uid db ((OSUsers.get_user_by_uid db c x).2.1) x
      = ((OSUsers.get_user_by_uid db c x).1,
         (OSUsers.get_user_by_uid db c x).2.1, 0) := by
  unfold OSUsers.get_user_by_uid
  cases hfind : findA c.users x with
  | some v => simp [hfind]
  | none =>
    cases hget : passwd_to_user (getpwuid db x) with
    | some user => simp [hfind, hget, findA_insert_self]
    | none => simp [hfind, hget, findA_insert_self]

/-- C4: on a well-formed database and a reachable cache, a positive
`get_user_by_uid` call followed by `get_user_by_name` on the returned
user's name is a cache hit: it returns the same user, leaves the cache
unchanged, and performs no accessor call. -/
theorem uid_then_name_roundtrip (db : OS) (c0 : OSUsers) (x : Int)
    (u : User) (c1 : OSUsers) (k : Nat)
    (hwf : WFdb db) (hr : Reachable db c0)
    (h : OSUsers.get_user_by_uid db c0 x = (some u, c1, k)) :
    OSUsers.get_user_by_name db c1 u.name = .ok (some u) c1 0 := by
  have hinv := userInv_reachable hwf hr
  unfold OSUsers.get_user_by_uid at h
  split at h
  · rename_i v hfind
    injection h with h1 h2
    injection h2 with h2 h3
    subst h1 h2
    obtain ⟨he1, he2, he3⟩ := hinv x u hfind
    unfold OSUsers.get_user_by_name
    rw [he2]
    simp only []
    rw [hfind]
  · rename_i hfind
    split at h
    · rename_i user hget
      injection h with h1 h2
      injection h2 with h2 h3
      subst h2
      have hue : u = user := Option.some.inj h1.symm
      rw [hue]
      obtain ⟨pw, hpw, hu⟩ := passwd_to_user_some hget
      have hx : user.uid = x := by
        rw [hu]
        simp only [getpwuid] at hpw
        simpa using List.find?_some hpw
      unfold OSUsers.get_user_by_name
      dsimp only
      rw [findA_insert_self]
      simp only []
      rw [hx, findA_insert_self]
    · rename_i hget
      injection h with h1 h2
      cases h1

/-- C4 witness: the round trip at the concrete database `sampleDB`,
uid 1000 and user "alice", starting from the empty cache. -/
theorem uid_then_name_roundtrip_witness :
    OSUsers.get_user_by_name sampleDB cacheAfterUidLookup aliceUser.name
      = .ok (some aliceUser) cacheAfterUidLookup 0 :=
  uid_then_name_roundtrip sampleDB OSUsers.empty_cache 1000 aliceUser
    cacheAfterUidLookup 1 ⟨by decide, by decide⟩ ⟨[], rfl⟩ (by decide)

/-- C5: a negative `get_group_by_name` does not store its negative
marker: against `sampleDB` (which has no group "nobody"), the call on a
fresh cache makes one accessor call and returns the cache unchanged
(its `entry.set(None)` went to a cloned map), so the identical second
call repeats the accessor call instead of hitting a cached negative. -/
theorem group_name_negative_not_cached :
    OSUsers.get_group_by_name sampleDB OSUsers.empty_cache "nobody"
      = .ok none OSUsers.empty_cache 1 := by
  decide

/-- C6: on a cache whose uid field is still unset, `get_current_uid`
invokes the accessor exactly once, stores the scalar, and a repeated
call returns the same value and the same cache with no accessor call. -/
theorem current_uid_idempotent (db : OS) (c : OSUsers) (h : c.uid = none) :
    OSUsers.get_current_uid db c
      = (getuid db, { c with uid := some (getuid db) }, 1) ∧
    OSUsers.get_current_uid db { c with uid := some (getuid db) }
      = (getuid db, { c with uid := some (getuid db) }, 0) := by
  unfold OSUsers.get_current_uid
  rw [h]
  exact ⟨rfl, rfl⟩

/-- C6 witness: `get_current_uid` on the empty cache against `sampleDB`. -/
theorem current_uid_idempotent_witness :
    OSUsers.get_current_uid sampleDB OSUsers.empty_cache
      = (getuid sampleDB,
         { OSUsers.empty_cache with uid := some (getuid sampleDB) }, 1) ∧
    OSUsers.get_current_uid sampleDB
        { OSUsers.empty_cache with uid := some (getuid sampleDB) }
      = (getuid sampleDB,
         { OSUsers.empty_cache with uid := some (getuid sampleDB) }, 0) :=
  current_uid_idempotent sampleDB OSUsers.empty_cache rfl

/-- C7: each of the five stateless free functions performs exactly one
lookup on a fresh empty cache (the free function's value is that of the
single method call on `empty_cache`), and from the empty cache every
such lookup performs exactly one accessor call — so two sequential
stateless lookups for the same key each trigger their own call. -/
theorem free_functions_use_fresh_cache (db : OS) (x : Int) (n : String)
    (g : Nat) (gn : String) :
    get_user_by_uid db x
      = (OSUsers.get_user_by_uid db OSUsers.empty_cache x).1 ∧
    (OSUsers.get_user_by_uid db OSUsers.empty_cache x).2.2 = 1 ∧
    get_user_by_name db n
      = OSUsers.get_user_by_name db OSUsers.empty_cache n ∧
    (OSUsers.get_user_by_name db OSUsers.empty_cache n).callsOf = some 1 ∧
    get_group_by_gid db g
      = (OSUsers.get_group_by_gid db OSUsers.empty_cache g).1 ∧
    (OSUsers.get_group_by_gid db OSUsers.empty_cache g).2.2 = 1 ∧
    get_group_by_name db gn
      = OSUsers.get_group_by_name db OSUsers.empty_cache gn ∧
    (OSUsers.get_group_by_name db OSUsers.empty_cache gn).callsOf = some 1 ∧
    get_current_uid db = (OSUsers.get_current_uid db OSUsers.empty_cache).1 ∧
    (OSUsers.get_current_uid db OSUsers.empty_cache).2.2 = 1 := by
  refine ⟨rfl, ?_, rfl, ?_, rfl, ?_, rfl, ?_, rfl, rfl⟩
  · unfold OSUsers.get_user_by_uid
    cases passwd_to_user (getpwuid db x) <;> rfl
  · unfold OSUsers.get_user_by_name
    cases passwd_to_user (getpwnam db n) <;> rfl
  · unfold OSUsers.get_group_by_gid
    cases struct_to_group (getgrgid db g) <;> rfl
  · unfold OSUsers.get_group_by_name
    cases struct_to_group (getgrnam db gn) <;> rfl

/-- C8: a sequence of lookups on one cache can end in a panic rather
than an absent value: against `sampleDB`, a positive `get_group_by_gid 7`
followed by `get_group_by_name "staff"` panics (indexing the `groups`
map, left empty by the cloned-map insertion, with gid 7). -/
theorem lookup_sequence_panics :
    runOps sampleDB OSUsers.empty_cache
        [Op.groupByGid 7, Op.groupByName "staff"] = none := by
  decide

/-- C9: the member walk collects the non-null entries in order and stops
at the first null entry; an undereferenceable outer pointer or an
exhausted sequence also stops the walk with the members collected so
far; and a present group record always converts to a present `Group`
(possibly with an empty member list), never to absence. -/
theorem members_null_terminated_walk (ms : List String)
    (tail : List (Option String)) (gr : CGroup) :
    members (some (ms.map some ++ none :: tail)) = ms ∧
    members (some (ms.map some)) = ms ∧
    members none = [] ∧
    struct_to_group (some gr)
      = some { gid := gr.gr_gid, name := gr.gr_name,
               members := members gr.gr_mem } ∧
    struct_to_group none = none :=
  ⟨by simpa [members] using membersLoop_map_append ms tail,
   by simpa [members] using membersLoop_map ms, rfl, rfl, rfl⟩

/-- C10: `get_group_by_gid` never changes the gid-to-Group mapping
(`groups` field) of the cache, in the hit, positive-miss and
negative-miss branches alike, because its insertions are applied to a
clone of the map. -/
theorem gid_lookup_groups_frame (db : OS) (c : OSUsers) (g : Nat) :
    ((OSUsers.get_group_by_gid db c g).2.1).groups = c.groups := by
  unfold OSUsers.get_group_by_gid
  cases findA c.groups g with
  | some v => rfl
  | none => cases struct_to_group (getgrgid db g) <;> rfl

end RustUsers
